import Mathlib

/-!
Verification development for the candidate-to-job matching pipeline in
`src/app.py` (Flask service).  The pipeline pieces embedded here:

* the query planner inside `search_jobs` (app.py lines 320-330),
* the Jooble aggregation loop with URL dedup (app.py lines 336-360),
* the blocklist relevance filter and top-15 truncation (app.py lines 362-393),
* `get_ai_scores`, the batched AI scorer with one bounded rate-limit
  retry and positional-id score merging (app.py lines 177-253),
* the best-effort Google-Sheets result sink (app.py lines 400-407).

Python strings are modelled as Lean `String`/`List Char`; `dict.get` of a
possibly absent field is modelled as `Option`; machine-level unicode
details (Python lowercases the full unicode range, Lean's `Char.toLower`
the ASCII range) are noted where they arise — all configured blocklist
words and examples are ASCII.
-/

namespace App

/-! ## Python string primitives used by the planner (app.py line 322) -/

/-- Python whitespace for `str.strip()` / `str.split()` (ASCII part). -/
def isPySpace (c : Char) : Bool :=
  c = ' ' || c = '\t' || c = '\n' || c = '\r' || c = '\x0b' || c = '\x0c'

/-- One left-to-right pass implementing `re.sub(r'\(.*?\)', '', s)`.
The state `some buf` means we are inside a pending `(`-group whose
characters (in reverse) are `buf`.  Non-greedy matching removes from each
`(` through the nearest following `)`; because `.` does not match a
newline, a `'\n'` before any `)` makes the pending `(` fail to match, and
the buffered characters are emitted literally (any `(` inside the buffer
would fail on the same newline, so flushing the whole buffer agrees with
the regex engine restarting at each position). -/
def stripParensAux : List Char → Option (List Char) → List Char
  | [], none => []
  | [], some buf => buf.reverse
  | c :: rest, none =>
    if c = '(' then stripParensAux rest (some [c])
    else c :: stripParensAux rest none
  | c :: rest, some buf =>
    if c = ')' then stripParensAux rest none
    else if c = '\n' then buf.reverse ++ c :: stripParensAux rest none
    else stripParensAux rest (some (c :: buf))

def stripParens (l : List Char) : List Char := stripParensAux l none

/-- Python `str.strip()` on the character list. -/
def pyStrip (l : List Char) : List Char :=
  ((l.dropWhile isPySpace).reverse.dropWhile isPySpace).reverse

/-- Accumulator pass for Python `str.split()` (split on whitespace runs,
no empty words). `cur` holds the current word in reverse. -/
def pySplitAux : List Char → List Char → List String
  | [], cur => if cur.isEmpty then [] else [String.mk cur.reverse]
  | c :: rest, cur =>
    if isPySpace c then
      if cur.isEmpty then pySplitAux rest []
      else String.mk cur.reverse :: pySplitAux rest []
    else pySplitAux rest (c :: cur)

/-- Python `str.split()` with no argument. -/
def pySplit (s : String) : List String := pySplitAux s.data []

/-- Source: `clean_t = re.sub(r'\(.*?\)', '', t).replace('/', ' ').strip()`
(app.py line 322). -/
def cleanTitle (t : String) : String :=
  String.mk (pyStrip ((stripParens t.data).map (fun c => if c = '/' then ' ' else c)))

/-! ## Query planner (app.py lines 320-330) -/

/-- Source: `if q not in search_queries: search_queries.append(q)`. -/
def addQuery (acc : List String) (q : String) : List String :=
  if q ∈ acc then acc else acc ++ [q]

/-- Body of `for t in raw_titles[:2]` (app.py lines 321-328): append the
cleaned title, then, when it has at least two words, the first two words
joined by a space (`" ".join(words[:2])`). -/
def planStep (acc : List String) (t : String) : List String :=
  let clean_t := cleanTitle t
  let acc1 := addQuery acc clean_t
  let words := pySplit clean_t
  if 2 ≤ words.length then addQuery acc1 (String.intercalate " " (words.take 2))
  else acc1

/-- The queries accumulated from the first two raw titles. -/
def titleQueries (raw_titles : List String) : List String :=
  (raw_titles.take 2).foldl planStep []

/-- The full query plan: `search_queries.append("Business Analyst")` is
unconditional (app.py line 330). -/
def planQueries (raw_titles : List String) : List String :=
  titleQueries raw_titles ++ ["Business Analyst"]

/-! ## Provider postings and aggregation (app.py lines 336-360)

A raw Jooble posting is a JSON object read with `dict.get`; a field that
may be absent is an `Option` (absent = `none`).  A query whose HTTP call
raises contributes nothing to the run, exactly like a query returning
zero jobs, so the aggregator input is the list of per-query job lists. -/

structure RawJob where
  title : Option String
  company : Option String
  location : Option String
  link : Option String
  snippet : Option String
deriving DecidableEq

/-- Source: `if j.get('link') not in seen_urls: raw_results.append(j);
seen_urls.add(j.get('link'))` (app.py lines 355-357).  State =
(raw_results, seen_urls); the seen set is a list read by membership. -/
def dedupInsert (st : List RawJob × List (Option String)) (j : RawJob) :
    List RawJob × List (Option String) :=
  if j.link ∈ st.2 then st else (st.1 ++ [j], st.2 ++ [j.link])

/-- Processing one query's `jobs` list (app.py lines 354-357). -/
def addResponse (st : List RawJob × List (Option String)) (jobs : List RawJob) :
    List RawJob × List (Option String) :=
  jobs.foldl dedupInsert st

/-- The query loop with the early exit
`if len(raw_results) >= 25: break` checked before each query
(app.py line 342); once the count reaches 25 it can only grow, so
skipping each remaining response equals Python's `break`. -/
def aggregateAux (st : List RawJob × List (Option String)) :
    List (List RawJob) → List RawJob × List (Option String)
  | [] => st
  | r :: rest => if 25 ≤ st.1.length then st else aggregateAux (addResponse st r) rest

/-- The `raw_results` list after the whole Jooble fetch loop. -/
def aggregate (responses : List (List RawJob)) : List RawJob :=
  (aggregateAux ([], []) responses).1

/-! ## Relevance filter (app.py lines 362-393) -/

/-- The `forbidden_words` blocklist, verbatim (app.py lines 363-372). -/
def forbidden_words : List String :=
  ["recruitment", "recruiter", "talent acquisition", "hr manager", "human resources",
   "headhunter", "agency", "staffing", "werving", "selectie",
   "supply chain", "logistics", "warehouse", "operations manager", "floor manager",
   "store manager", "category manager", "facility", "coordinator", "commissioning",
   "quality", "environmental", "audit", "compliance", "legal",
   "sales", "account manager", "marketing", "commercial", "growth", "sme",
   "financial", "accountant", "tax", "treasury", "controller",
   "cleaner", "driver", "mechanic", "nurse", "teacher", "internship", "stage"]

/-- Python substring test `needle in hay`. -/
def strHasSub (needle : List Char) : List Char → Bool
  | [] => needle.isEmpty
  | c :: rest => needle.isPrefixOf (c :: rest) || strHasSub needle rest

/-- Python `str.lower()`; `Char.toLower` covers the ASCII range, which
includes every configured blocklist word. -/
def pyLower (s : String) : String := String.mk (s.data.map Char.toLower)

/-- Source: `any(bad in s.lower() for bad in forbidden_words)`
(app.py lines 380-381). -/
def blockedText (s : String) : Bool :=
  forbidden_words.any (fun bad => strHasSub bad.data (pyLower s).data)

/-- A pipeline posting as built by the filter stage (app.py lines
383-391): `title` keeps the raw `job.get('title')` (no default, so it
stays optional), the other fields get the dict-literal defaults, and the
score fields start at `0` / `"Analyzing..."`.  The AI merge later stores
`item.get("score")` / `item.get("reason")`, which may be absent, so the
score fields are optional values. -/
structure Posting where
  title : Option String
  company : String
  location : String
  job_url : Option String
  description : String
  match_score : Option Int
  match_reason : Option String
deriving DecidableEq

/-- The dict literal appended by the filter loop (app.py lines 383-391). -/
def mkPosting (j : RawJob) : Posting :=
  { title := j.title
    company := j.company.getD "Unknown"
    location := j.location.getD "Netherlands"
    job_url := j.link
    description := j.snippet.getD ""
    match_score := some 0
    match_reason := some "Analyzing..." }

/-- Keep a raw job iff neither its lowercased title nor its lowercased
company contains a blocklist word (`job.get('title', '').lower()`,
`job.get('company', '').lower()`, app.py lines 376-381). -/
def passesBlocklist (j : RawJob) : Bool :=
  !blockedText (j.title.getD "") && !blockedText (j.company.getD "")

/-- The whole filter stage: blocklist drop, dict rebuild, then
`final_jobs = final_jobs[:15]` (app.py lines 374-393). -/
def filterRaw (raw : List RawJob) : List Posting :=
  ((raw.filter passesBlocklist).map mkPosting).take 15

/-- The relevance-filter stage viewed as an operation on postings (the
same blocklist test over the stored title/company, then truncation to
the top 15) — the form in which the idempotence claim quantifies over
already-built postings. -/
def relevanceFilter (jobs : List Posting) : List Posting :=
  (jobs.filter (fun p => !blockedText (p.title.getD "") && !blockedText p.company)).take 15

/-! ## AI scorer: get_ai_scores (app.py lines 177-253)

The OpenAI call is an external event; one run of `get_ai_scores` is
determined by the outcomes of its at-most-two service calls.  A call
either returns a body (whose `json.loads` result is `some` parsed
`scores` list — a missing `"scores"` key reads as `[]` via
`score_data.get("scores", [])` — or `none` when parsing raises), or
raises an exception whose text may contain `"429"` (the rate-limit
marker tested at app.py line 223). -/

/-- One entry of the returned `scores` array.  `item.get("id")`,
`item.get("score")`, `item.get("reason")` all default to `None`, so each
field is optional; ids are modelled as JSON integers (a non-integer id
raises inside the guarded merge loop, which the `except` at app.py line
250 turns into "stop merging, keep what was already written" — the same
shape as the modelled IndexError branch). -/
structure ScoreItem where
  id : Option Int
  score : Option Int
  reason : Option String
deriving DecidableEq

/-- Outcome of one `client.chat.completions.create` call. -/
inductive AttemptResult
  | success (content : Option (List ScoreItem))
  | failure (rateLimited : Bool)
deriving DecidableEq

/-- Observable side effects of the scorer, in order: service calls and
the `time.sleep(65)` cooldown (app.py line 225). -/
inductive Effect
  | serviceCall
  | sleep (secs : Nat)
deriving DecidableEq

/-- Source: `jobs[n]["match_score"] = sc; jobs[n]["match_reason"] = rs` for an
in-range index. -/
def setScore (jobs : List Posting) (n : Nat) (sc : Option Int) (rs : Option String) :
    List Posting :=
  match jobs[n]? with
  | some p => jobs.set n { p with match_score := sc, match_reason := rs }
  | none => jobs

/-- The merge loop (app.py lines 245-249):
`if idx is not None and idx < len(jobs_to_score): jobs[idx][...] = ...`.
There is no lower bound on `idx`, and the write goes to `jobs`, not
`jobs_to_score`: Python resolves a negative index `i` with
`-len(jobs) ≤ i < 0` to position `len(jobs) + i`, and raises IndexError
for `i < -len(jobs)` (or `i ≥ len(jobs)`, unreachable from the pipeline
call site where `K ≤ len(jobs)`), which the surrounding `except` turns
into: keep the writes made so far, skip the remaining entries. -/
def applyScores (jobs : List Posting) (K : Nat) : List ScoreItem → List Posting
  | [] => jobs
  | item :: rest =>
    match item.id with
    | none => applyScores jobs K rest
    | some i =>
      if i < (K : Int) then
        if 0 ≤ i then
          if i.toNat < jobs.length then
            applyScores (setScore jobs i.toNat item.score item.reason) K rest
          else jobs
        else if 0 ≤ (jobs.length : Int) + i then
          applyScores (setScore jobs ((jobs.length : Int) + i).toNat item.score item.reason) K rest
        else jobs
      else applyScores jobs K rest

/-- The parse-and-merge block (app.py lines 241-252): a parse failure is
caught and leaves the jobs untouched. -/
def mergeScores (jobs : List Posting) (K : Nat) : Option (List ScoreItem) → List Posting
  | none => jobs
  | some items => applyScores jobs K items

/-- Source: `get_ai_scores(jobs, skills_list)` (app.py lines 177-253), returning
the posting list together with the trace of external effects.  Early
exit on empty input, attempt 1, on a 429-failure a 65s cooldown and one
retry, any other failure (or a failed retry) returns the jobs unscored;
a successful response is merged positionally over the first
`len(jobs[:10])` ids. -/
def get_ai_scores (jobs : List Posting) (skills_list : List String)
    (attempt1 attempt2 : AttemptResult) : List Posting × List Effect :=
  if jobs.isEmpty || skills_list.isEmpty then (jobs, [])
  else
    match attempt1 with
    | .success content => (mergeScores jobs (jobs.take 10).length content, [.serviceCall])
    | .failure true =>
      match attempt2 with
      | .success content =>
        (mergeScores jobs (jobs.take 10).length content, [.serviceCall, .sleep 65, .serviceCall])
      | .failure _ => (jobs, [.serviceCall, .sleep 65, .serviceCall])
    | .failure false => (jobs, [.serviceCall])

/-- The posting index a returned id resolves to under the merge loop's
guard (`none` when the entry is skipped or raises): a non-negative id
`i < K` targets index `i`; a negative id `i` with `0 ≤ len + i` targets
`len + i`. -/
def targetIdx (len K : Nat) (idOpt : Option Int) : Option Nat :=
  match idOpt with
  | none => none
  | some i =>
    if i < (K : Int) then
      if 0 ≤ i then some i.toNat
      else if 0 ≤ (len : Int) + i then some ((len : Int) + i).toNat
      else none
    else none

/-- The index a whole score entry targets. -/
def targetOf (len K : Nat) (it : ScoreItem) : Option Nat := targetIdx len K it.id

/-- Does a score entry carry a non-negative (or absent) id? -/
def itemIdNonneg (it : ScoreItem) : Bool :=
  match it.id with
  | none => true
  | some i => 0 ≤ i

/-- All ids non-negative in a successfully parsed attempt (vacuously
true for failures and parse errors). -/
def attemptIdsNonneg : AttemptResult → Bool
  | .success (some items) => items.all itemIdNonneg
  | _ => true

/-- The fields of a posting other than `match_score`/`match_reason`. -/
def frameOf (p : Posting) : Option String × String × String × Option String × String :=
  (p.title, p.company, p.location, p.job_url, p.description)

/-- The frame fields of a whole list, in order. -/
def framesOf (l : List Posting) : List (Option String × String × String × Option String × String) :=
  l.map frameOf

/-! ## Result sink (app.py lines 400-407) -/

/-- The row appended per posting:
`[timestamp, candidate_name, job['title'], job['company'],
job['location'], job['job_url']]` (app.py line 404). -/
def mkRow (ts name : String) (p : Posting) : List (Option String) :=
  [some ts, some name, p.title, some p.company, some p.location, p.job_url]

/-- The append loop; `failAt i = true` means the `try` body for the
`i`-th posting raises, and the bare `except: pass` swallows it
(app.py lines 404-405). -/
def sinkRowsAux (ts name : String) (failAt : Nat → Bool) :
    List Posting → Nat → List (List (Option String))
  | [], _ => []
  | p :: rest, i =>
    if failAt i then sinkRowsAux ts name failAt rest (i + 1)
    else mkRow ts name p :: sinkRowsAux ts name failAt rest (i + 1)

/-- Source: `if sheet and final_jobs:` then append every row; the response
handed to `jsonify` is `final_jobs` either way (app.py lines 401-407).
Result = (rows durably appended, response body). -/
def runSink (sheetConnected : Bool) (ts name : String) (final_jobs : List Posting)
    (failAt : Nat → Bool) : List (List (Option String)) × List Posting :=
  if sheetConnected && !final_jobs.isEmpty then
    (sinkRowsAux ts name failAt final_jobs 0, final_jobs)
  else ([], final_jobs)

/-! ## Concrete sample data for witnesses and counterexamples -/

/-- A filter-stage posting with default score fields; `n` only
distinguishes the URL. -/
def samplePosting (n : Nat) : Posting :=
  { title := some "T"
    company := "Acme"
    location := "NL"
    job_url := some (String.mk (List.replicate n 'u'))
    description := "d"
    match_score := some 0
    match_reason := some "Analyzing..." }

/-- A list of `k` distinct default postings. -/
def sampleJobs (k : Nat) : List Posting := (List.range k).map samplePosting

/-- Invariant of the fetch loop: accumulated links are pairwise distinct
and all recorded in `seen_urls`. -/
def aggInv (st : List RawJob × List (Option String)) : Prop :=
  (st.1.map RawJob.link).Nodup ∧ ∀ x ∈ st.1.map RawJob.link, x ∈ st.2

/-! ## Aggregation/filter lemmas -/

theorem dedupInsert_inv {st : List RawJob × List (Option String)} (j : RawJob)
    (h : aggInv st) : aggInv (dedupInsert st j) := by
  unfold dedupInsert
  split
  · exact h
  · rename_i hnot
    obtain ⟨h1, h2⟩ := h
    constructor
    · rw [List.map_append, List.map_singleton]
      refine List.nodup_append.2 ⟨h1, List.nodup_singleton _, ?_⟩
      rw [List.disjoint_singleton]
      intro hmem
      exact hnot (h2 _ hmem)
    · intro x hx
      rw [List.map_append, List.map_singleton] at hx
      rcases List.mem_append.1 hx with hx | hx
      · exact List.mem_append_left _ (h2 x hx)
      · rw [List.mem_singleton] at hx
        subst hx
        exact List.mem_append_right _ (List.mem_singleton_self _)

theorem addResponse_inv :
    ∀ (jobs : List RawJob) (st : List RawJob × List (Option String)),
      aggInv st → aggInv (addResponse st jobs)
  | [], _, h => h
  | j :: jobs, st, h => addResponse_inv jobs (dedupInsert st j) (dedupInsert_inv j h)

theorem aggregateAux_inv :
    ∀ (responses : List (List RawJob)) (st : List RawJob × List (Option String)),
      aggInv st → aggInv (aggregateAux st responses)
  | [], _, h => h
  | r :: rest, st, h => by
    unfold aggregateAux
    split
    · exact h
    · exact aggregateAux_inv rest (addResponse st r) (addResponse_inv r st h)

theorem aggregate_links_nodup (responses : List (List RawJob)) :
    ((aggregate responses).map RawJob.link).Nodup :=
  (aggregateAux_inv responses ([], []) ⟨List.nodup_nil, by intro x hx; cases hx⟩).1

theorem filterRaw_urls_sublist (l : List RawJob) :
    List.Sublist ((filterRaw l).map Posting.job_url) (l.map RawJob.link) := by
  unfold filterRaw
  have h1 : List.Sublist ((((l.filter passesBlocklist).map mkPosting).take 15).map Posting.job_url)
      (((l.filter passesBlocklist).map mkPosting).map Posting.job_url) :=
    (List.take_sublist _ _).map _
  have h2 : (((l.filter passesBlocklist).map mkPosting).map Posting.job_url)
      = (l.filter passesBlocklist).map RawJob.link := by
    rw [List.map_map]
    rfl
  rw [h2] at h1
  exact h1.trans ((List.filter_sublist _).map _)

/-! ## Claim theorems about aggregation and the filter -/

/-- C5 counterexample: a provider posting with no `link` field passes
aggregation (its `None` link is simply an unseen dedup key) and the
blocklist filter, so a surviving posting can have a missing canonical
URL — refuting the "non-empty URL" half of the invariant. -/
theorem filter_url_missing_cex :
    ∃ p ∈ filterRaw (aggregate [[RawJob.mk (some "Engineer") (some "Acme") (some "NL") none (some "d")]]),
      p.job_url = none := by
  decide

/-- C5 amended: the dedup half of the invariant holds — the aggregated
run contains at most one posting per canonical-URL value (links pairwise
distinct), and the postings surviving the filter stage likewise carry
pairwise-distinct URLs; but nothing forces a surviving URL to be present
or non-empty (see `filter_url_missing_cex`). -/
theorem dedup_urls_nodup (responses : List (List RawJob)) :
    ((aggregate responses).map RawJob.link).Nodup ∧
      ((filterRaw (aggregate responses)).map Posting.job_url).Nodup := by
  have h := aggregate_links_nodup responses
  exact ⟨h, h.sublist (filterRaw_urls_sublist (aggregate responses))⟩

theorem passes_mkPosting {j : RawJob} (h : passesBlocklist j = true) :
    (!blockedText ((mkPosting j).title.getD "") && !blockedText (mkPosting j).company) = true := by
  unfold passesBlocklist at h
  rw [Bool.and_eq_true] at h
  obtain ⟨h1, h2⟩ := h
  have htitle : (mkPosting j).title = j.title := rfl
  have hcomp : (mkPosting j).company = j.company.getD "Unknown" := rfl
  rw [Bool.and_eq_true, htitle, hcomp]
  refine ⟨h1, ?_⟩
  cases hc : j.company with
  | some c =>
    rw [hc] at h2
    exact h2
  | none =>
    show (!blockedText "Unknown") = true
    decide

/-- C6: the relevance-filter stage is idempotent on posting lists — one
more pass over an already-filtered list removes, reorders and truncates
nothing — and the filter stage's actual pipeline output `filterRaw raw`
is already a fixpoint of the stage. -/
theorem relevance_filter_idempotent (l : List Posting) (raw : List RawJob) :
    relevanceFilter (relevanceFilter l) = relevanceFilter l ∧
      relevanceFilter (filterRaw raw) = filterRaw raw := by
  constructor
  · unfold relevanceFilter
    have hall : ∀ a ∈ (l.filter fun p =>
          !blockedText (p.title.getD "") && !blockedText p.company).take 15,
        (!blockedText (a.title.getD "") && !blockedText a.company) = true := by
      intro a ha
      exact (List.mem_filter.1 ((List.take_sublist _ _).subset ha)).2
    rw [List.filter_eq_self.2 hall, List.take_take, Nat.min_self]
  · unfold relevanceFilter filterRaw
    have hall : ∀ a ∈ ((raw.filter passesBlocklist).map mkPosting).take 15,
        (!blockedText (a.title.getD "") && !blockedText a.company) = true := by
      intro a ha
      have ha2 := (List.take_sublist _ _).subset ha
      obtain ⟨j, hj, rfl⟩ := List.mem_map.1 ha2
      exact passes_mkPosting (List.of_mem_filter hj)
    rw [List.filter_eq_self.2 hall, List.take_take, Nat.min_self]

/-! ## Planner lemmas -/

theorem addQuery_nodup {acc : List String} (q : String) (h : acc.Nodup) :
    (addQuery acc q).Nodup := by
  unfold addQuery
  split
  · exact h
  · rename_i hq
    exact List.nodup_append.2 ⟨h, List.nodup_singleton q, List.disjoint_singleton.2 hq⟩

theorem planStep_nodup {acc : List String} (t : String) (h : acc.Nodup) :
    (planStep acc t).Nodup := by
  unfold planStep
  dsimp only
  split
  · exact addQuery_nodup _ (addQuery_nodup _ h)
  · exact addQuery_nodup _ h

theorem foldl_planStep_nodup :
    ∀ (ts : List String) (acc : List String), acc.Nodup → (ts.foldl planStep acc).Nodup
  | [], _, h => h
  | t :: ts, acc, h => foldl_planStep_nodup ts (planStep acc t) (planStep_nodup t h)

theorem titleQueries_nodup (ts : List String) : (titleQueries ts).Nodup :=
  foldl_planStep_nodup _ [] List.nodup_nil

theorem mem_addQuery_self (acc : List String) (q : String) : q ∈ addQuery acc q := by
  unfold addQuery
  split
  · assumption
  · exact List.mem_append_right _ (List.mem_singleton_self q)

theorem mem_addQuery_of_mem {acc : List String} {x : String} (q : String) (h : x ∈ acc) :
    x ∈ addQuery acc q := by
  unfold addQuery
  split
  · exact h
  · exact List.mem_append_left _ h

theorem mem_planStep_of_mem {acc : List String} {x : String} (t : String) (h : x ∈ acc) :
    x ∈ planStep acc t := by
  unfold planStep
  dsimp only
  split
  · exact mem_addQuery_of_mem _ (mem_addQuery_of_mem _ h)
  · exact mem_addQuery_of_mem _ h

theorem cleanTitle_mem_planStep (acc : List String) (t : String) :
    cleanTitle t ∈ planStep acc t := by
  unfold planStep
  dsimp only
  split
  · exact mem_addQuery_of_mem _ (mem_addQuery_self acc (cleanTitle t))
  · exact mem_addQuery_self acc (cleanTitle t)

theorem mem_foldl_planStep_of_mem :
    ∀ (ts : List String) (acc : List String) (x : String), x ∈ acc →
      x ∈ ts.foldl planStep acc
  | [], _, _, h => h
  | t :: ts, acc, x, h =>
    mem_foldl_planStep_of_mem ts (planStep acc t) x (mem_planStep_of_mem t h)

theorem cleanTitle_mem_foldl :
    ∀ (ts : List String) (acc : List String) (t : String), t ∈ ts →
      cleanTitle t ∈ ts.foldl planStep acc
  | [], _, _, h => absurd h (List.not_mem_nil _)
  | t' :: ts, acc, t, h => by
    rcases List.mem_cons.1 h with h1 | h2
    · subst h1
      exact mem_foldl_planStep_of_mem ts (planStep acc t) _ (cleanTitle_mem_planStep acc t)
    · exact cleanTitle_mem_foldl ts (planStep acc t') t h2

/-! ## Claim theorems about the planner -/

/-- C2 counterexample: the input `["Business Analyst"]` is a non-empty
`job_titles` list, yet the emitted query sequence contains a duplicate,
because the fixed fallback `"Business Analyst"` is appended
unconditionally (app.py line 330) with no membership check.  So the
claim "non-empty job_titles produce a duplicate-free query sequence" is
false as stated. -/
theorem plan_duplicate_cex :
    (["Business Analyst"] : List String) ≠ [] ∧
      planQueries ["Business Analyst"] = ["Business Analyst", "Business Analyst"] ∧
      ¬ (planQueries ["Business Analyst"]).Nodup := by
  refine ⟨by decide, by decide, ?_⟩
  intro h
  have : planQueries ["Business Analyst"] = ["Business Analyst", "Business Analyst"] := by decide
  rw [this] at h
  simp at h

/-- C2 amended: for every input (empty or not) the query plan is
non-empty and ends with the fixed fallback `"Business Analyst"`; the
queries derived from the titles are duplicate-free; and the whole
sequence is duplicate-free exactly when no title-derived query equals
the fallback (the fallback is appended without a membership check). -/
theorem plan_nonempty_nodup_characterization (ts : List String) :
    planQueries ts ≠ [] ∧
      (planQueries ts).dropLast.Nodup ∧
      (planQueries ts).getLast? = some "Business Analyst" ∧
      ((planQueries ts).Nodup ↔ "Business Analyst" ∉ titleQueries ts) := by
  refine ⟨by simp [planQueries], ?_, ?_, ?_⟩
  · rw [planQueries, List.dropLast_concat]
    exact titleQueries_nodup ts
  · simp [planQueries]
  · rw [planQueries, List.nodup_append]
    constructor
    · rintro ⟨-, -, hd⟩
      exact List.disjoint_singleton.1 hd
    · intro hmem
      exact ⟨titleQueries_nodup ts, List.nodup_singleton _, List.disjoint_singleton.2 hmem⟩

/-- C7 counterexample: the raw title `"(x)"` cleans to the empty string,
and the planner does NOT skip it — the empty string is emitted as a
blank query (there is no emptiness check before
`search_queries.append(clean_t)` at app.py line 323).  This refutes the
claim that no blank query ever appears. -/
theorem blank_query_cex :
    cleanTitle "(x)" = "" ∧ "" ∈ planQueries ["(x)"] := by
  constructor
  · decide
  · have : planQueries ["(x)"] = ["", "Business Analyst"] := by decide
    rw [this]
    exact List.mem_cons_self _ _

/-- C7 amended: a raw title among the first two whose cleaned form is
empty is not skipped; the empty string itself appears in the emitted
query sequence (deduplicated against the other title-derived queries,
so it appears at most once by `plan_nonempty_nodup_characterization`). -/
theorem blank_query_emitted (ts : List String) (t : String)
    (ht : t ∈ ts.take 2) (hclean : cleanTitle t = "") :
    "" ∈ planQueries ts := by
  have h := cleanTitle_mem_foldl (ts.take 2) [] t ht
  rw [hclean] at h
  exact List.mem_append_left _ h

/-- Witness for `blank_query_emitted` at the concrete input
`["(Remote)", "X"]`. -/
theorem blank_query_emitted_witness :
    ("(Remote)" ∈ (["(Remote)", "X"] : List String).take 2 ∧ cleanTitle "(Remote)" = "") ∧
      "" ∈ planQueries ["(Remote)", "X"] :=
  ⟨⟨by decide, by decide⟩,
    blank_query_emitted ["(Remote)", "X"] "(Remote)" (by decide) (by decide)⟩

/-- C10: the planner reads only `raw_titles[:2]` (app.py line 321), so
two inputs agreeing on their first two titles yield identical query
plans, whatever their later elements are. -/
theorem plan_depends_only_on_first_two (ts1 ts2 : List String)
    (h : ts1.take 2 = ts2.take 2) : planQueries ts1 = planQueries ts2 := by
  unfold planQueries titleQueries
  rw [h]

/-- Witness for `plan_depends_only_on_first_two`: the inputs
`["A", "B", "C"]` and `["A", "B", "D"]` agree on their first two titles
and produce the same plan. -/
theorem plan_depends_only_on_first_two_witness :
    (["A", "B", "C"] : List String).take 2 = (["A", "B", "D"] : List String).take 2 ∧
      planQueries ["A", "B", "C"] = planQueries ["A", "B", "D"] :=
  ⟨by decide, plan_depends_only_on_first_two ["A", "B", "C"] ["A", "B", "D"] (by decide)⟩

/-! ## Scorer lemmas -/

theorem set_self_of_getElem? :
    ∀ {α : Type} (l : List α) (n : Nat) (a : α), l[n]? = some a → l.set n a = l
  | _, [], n, a, h => by simp at h
  | _, x :: l, 0, a, h => by
    simp only [List.getElem?_cons_zero, Option.some.injEq] at h
    rw [List.set_cons_zero, h]
  | _, x :: l, n + 1, a, h => by
    simp only [List.getElem?_cons_succ] at h
    rw [List.set_cons_succ, set_self_of_getElem? l n a h]

theorem setScore_length (jobs : List Posting) (n : Nat) (sc : Option Int) (rs : Option String) :
    (setScore jobs n sc rs).length = jobs.length := by
  unfold setScore
  split
  · exact List.length_set ..
  · rfl

theorem setScore_framesOf (jobs : List Posting) (n : Nat) (sc : Option Int) (rs : Option String) :
    framesOf (setScore jobs n sc rs) = framesOf jobs := by
  unfold setScore
  split
  · rename_i p hp
    unfold framesOf
    rw [List.map_set]
    have hf : frameOf { p with match_score := sc, match_reason := rs } = frameOf p := rfl
    rw [hf]
    refine set_self_of_getElem? _ n _ ?_
    rw [List.getElem?_map, hp]
    rfl
  · rfl

theorem setScore_getElem?_ne (jobs : List Posting) (n : Nat) (sc : Option Int)
    (rs : Option String) {j : Nat} (h : j ≠ n) :
    (setScore jobs n sc rs)[j]? = jobs[j]? := by
  unfold setScore
  split
  · exact List.getElem?_set_ne (fun he => h he.symm)
  · rfl

theorem applyScores_framesOf :
    ∀ (items : List ScoreItem) (jobs : List Posting) (K : Nat),
      framesOf (applyScores jobs K items) = framesOf jobs
  | [], _, _ => rfl
  | item :: rest, jobs, K => by
    unfold applyScores
    split
    · exact applyScores_framesOf rest jobs K
    · split
      · split
        · split
          · rw [applyScores_framesOf rest _ K, setScore_framesOf]
          · rfl
        · split
          · rw [applyScores_framesOf rest _ K, setScore_framesOf]
          · rfl
      · exact applyScores_framesOf rest jobs K

theorem applyScores_length (items : List ScoreItem) (jobs : List Posting) (K : Nat) :
    (applyScores jobs K items).length = jobs.length := by
  have h := applyScores_framesOf items jobs K
  have h1 : (framesOf (applyScores jobs K items)).length = (framesOf jobs).length := by rw [h]
  unfold framesOf at h1
  rwa [List.length_map, List.length_map] at h1

theorem applyScores_getElem?_not_target :
    ∀ (items : List ScoreItem) (jobs : List Posting) (K : Nat) (j : Nat),
      j ∉ items.filterMap (targetOf jobs.length K) →
      (applyScores jobs K items)[j]? = jobs[j]?
  | [], _, _, _, _ => rfl
  | item :: rest, jobs, K, j, hj => by
    rw [List.filterMap_cons] at hj
    unfold applyScores
    cases hid : item.id with
    | none =>
      simp only [targetOf, targetIdx, hid] at hj
      simp only [hid]
      exact applyScores_getElem?_not_target rest jobs K j hj
    | some i =>
      simp only [targetOf, targetIdx, hid] at hj
      simp only [hid]
      split
      · rename_i hK
        simp only [if_pos hK] at hj
        split
        · rename_i hpos
          simp only [if_pos hpos, List.mem_cons] at hj
          push_neg at hj
          obtain ⟨hne, hj⟩ := hj
          split
          · have hlen := setScore_length jobs i.toNat item.score item.reason
            rw [applyScores_getElem?_not_target rest _ K j (by rwa [hlen]),
              setScore_getElem?_ne _ _ _ _ hne]
          · rfl
        · rename_i hneg
          simp only [if_neg hneg] at hj
          split
          · rename_i hmin
            simp only [if_pos hmin, List.mem_cons] at hj
            push_neg at hj
            obtain ⟨hne, hj⟩ := hj
            have hlen := setScore_length jobs ((jobs.length : Int) + i).toNat item.score item.reason
            rw [applyScores_getElem?_not_target rest _ K j (by rwa [hlen]),
              setScore_getElem?_ne _ _ _ _ hne]
          · rfl
      · rename_i hK
        simp only [if_neg hK] at hj
        exact applyScores_getElem?_not_target rest jobs K j hj

theorem target_lt_K_of_nonneg {len K : Nat} {items : List ScoreItem}
    (hids : items.all itemIdNonneg = true) {x : Nat}
    (hx : x ∈ items.filterMap (targetOf len K)) : x < K := by
  obtain ⟨it, hit, htgt⟩ := List.mem_filterMap.1 hx
  have hnn : itemIdNonneg it = true := (List.all_eq_true.1 hids) it hit
  cases hid : it.id with
  | none =>
    simp only [targetOf, targetIdx, hid] at htgt
    cases htgt
  | some i =>
    simp only [targetOf, targetIdx, hid] at htgt
    simp only [itemIdNonneg, hid, decide_eq_true_eq] at hnn
    rw [if_pos hnn] at htgt
    split at htgt
    · rename_i hK
      injection htgt with htgt
      subst htgt
      have hlt : (i.toNat : Int) < (K : Int) := by rwa [Int.toNat_of_nonneg hnn]
      exact_mod_cast hlt
    · cases htgt

/-! ## Claim theorems about the AI scorer -/

/-- C1 counterexample: on a 2-posting batch the service entry
`{id: -1, score: 50}` has an id outside `[0, K)` (here `K = 2`), yet it
is NOT ignored: the guard `idx < len(jobs_to_score)` (app.py line 247)
has no lower bound, Python resolves index `-1` to the last posting, and
that posting's score silently changes from its default `0` to `50`. -/
theorem negative_id_escapes_merge_cex :
    (¬ (0 ≤ (-1 : Int) ∧ (-1 : Int) < (((sampleJobs 2).take 10).length : Int))) ∧
      (sampleJobs 2).map Posting.match_score = [some 0, some 0] ∧
      ((get_ai_scores (sampleJobs 2) ["SQL"]
          (.success (some [ScoreItem.mk (some (-1)) (some 50) (some "r")]))
          (.failure false)).1).map Posting.match_score = [some 0, some 50] := by
  refine ⟨by decide, by decide, by decide⟩

/-- C1 amended: each returned entry whose id is absent or `≥ K` is
ignored, but an entry with a negative id is resolved the Python way
(index `len(jobs) + id`); every posting whose index is targeted by no
returned entry — where a non-negative id `i < K` targets `i` and a
negative id `i` with `len + i ≥ 0` targets `len + i`, as captured by
`targetOf` — keeps its prior score and reason (indeed the whole posting)
unchanged. -/
theorem merge_ignores_untargeted (jobs : List Posting) (skills : List String)
    (items : List ScoreItem) (a2 : AttemptResult) (j : Nat)
    (hj : j ∉ items.filterMap (targetOf jobs.length ((jobs.take 10).length))) :
    ((get_ai_scores jobs skills (.success (some items)) a2).1)[j]? = jobs[j]? := by
  unfold get_ai_scores
  split
  · rfl
  · exact applyScores_getElem?_not_target items jobs _ j hj

/-- Witness for `merge_ignores_untargeted`: a lone entry with the
out-of-range id `5` on a 2-posting batch targets nothing, and posting 0
is unchanged. -/
theorem merge_ignores_untargeted_witness :
    (0 ∉ [ScoreItem.mk (some 5) (some 1) (some "x")].filterMap
        (targetOf (sampleJobs 2).length (((sampleJobs 2).take 10).length))) ∧
      ((get_ai_scores (sampleJobs 2) ["SQL"]
          (.success (some [ScoreItem.mk (some 5) (some 1) (some "x")]))
          (.failure false)).1)[0]? = (sampleJobs 2)[0]? :=
  ⟨by decide,
    merge_ignores_untargeted (sampleJobs 2) ["SQL"]
      [ScoreItem.mk (some 5) (some 1) (some "x")] (.failure false) 0 (by decide)⟩

/-- C3: on every failure outcome — a non-rate-limit service error, a
rate-limit rejection followed by any failing retry, or an unparseable
response body (also after a retried call) — `get_ai_scores` returns its
input posting list unchanged, so every posting keeps its default score
`0` and default reason text, and the stage never raises past its
boundary (in the embedding it is a total function into posting lists). -/
theorem ai_failure_returns_unscored (jobs : List Posting) (skills : List String)
    (a1 a2 : AttemptResult)
    (h : a1 = .failure false ∨ a1 = .success none ∨
      (a1 = .failure true ∧ (a2 = .success none ∨ a2 = .failure true ∨ a2 = .failure false))) :
    (get_ai_scores jobs skills a1 a2).1 = jobs := by
  rcases h with h | h | ⟨h, h2⟩
  · subst h
    unfold get_ai_scores
    split
    · rfl
    · rfl
  · subst h
    unfold get_ai_scores
    split
    · rfl
    · rfl
  · subst h
    rcases h2 with h2 | h2 | h2 <;>
      · subst h2
        unfold get_ai_scores
        split
        · rfl
        · rfl

/-- Witness for `ai_failure_returns_unscored` at a concrete
one-posting input with a non-rate-limit first-call failure. -/
theorem ai_failure_returns_unscored_witness :
    (get_ai_scores (sampleJobs 1) ["s"] (.failure false) (.failure false)).1 = sampleJobs 1 :=
  ai_failure_returns_unscored (sampleJobs 1) ["s"] (.failure false) (.failure false) (Or.inl rfl)

theorem get_ai_scores_trace (jobs : List Posting) (skills : List String)
    (a1 a2 : AttemptResult) :
    (get_ai_scores jobs skills a1 a2).2 = [] ∨
      (get_ai_scores jobs skills a1 a2).2 = [Effect.serviceCall] ∨
      (get_ai_scores jobs skills a1 a2).2
        = [Effect.serviceCall, Effect.sleep 65, Effect.serviceCall] := by
  unfold get_ai_scores
  split
  · exact Or.inl rfl
  · cases a1 with
    | success c => exact Or.inr (Or.inl rfl)
    | failure rl =>
      cases rl with
      | true =>
        cases a2 with
        | success c => exact Or.inr (Or.inr rfl)
        | failure b => exact Or.inr (Or.inr rfl)
      | false => exact Or.inr (Or.inl rfl)

/-- C4: when the first call is rate-limited (and the scorer actually
runs, i.e. jobs and skills are non-empty), the effect trace is exactly
call, 65-second cooldown sleep, call — one retry, cooldown honored
before it; if the retry returns a body, the resulting postings are
exactly those of a run whose first call returned that body (the scores
come from the second call); if the retry fails, the postings come back
unchanged (defaults retained); and over all outcomes the scorer never
makes more than two service calls. -/
theorem rate_limit_retry_policy (jobs : List Posting) (skills : List String)
    (a2 : AttemptResult) (h1 : jobs ≠ []) (h2 : skills ≠ []) :
    (get_ai_scores jobs skills (.failure true) a2).2
        = [Effect.serviceCall, Effect.sleep 65, Effect.serviceCall] ∧
      (∀ c, a2 = .success c →
        (get_ai_scores jobs skills (.failure true) a2).1
          = (get_ai_scores jobs skills (.success c) (.failure false)).1) ∧
      (∀ b, a2 = .failure b → (get_ai_scores jobs skills (.failure true) a2).1 = jobs) ∧
      (∀ b1 b2 : AttemptResult, ((get_ai_scores jobs skills b1 b2).2.count Effect.serviceCall) ≤ 2) := by
  have hj : jobs.isEmpty = false := by
    cases jobs with
    | nil => exact absurd rfl h1
    | cons a l => rfl
  have hs : skills.isEmpty = false := by
    cases skills with
    | nil => exact absurd rfl h2
    | cons a l => rfl
  refine ⟨?_, ?_, ?_, ?_⟩
  · unfold get_ai_scores
    rw [hj, hs]
    cases a2 with
    | success c => rfl
    | failure b => rfl
  · intro c hc
    subst hc
    unfold get_ai_scores
    rw [hj, hs]
    rfl
  · intro b hb
    subst hb
    unfold get_ai_scores
    rw [hj, hs]
    rfl
  · intro b1 b2
    rcases get_ai_scores_trace jobs skills b1 b2 with ht | ht | ht <;> rw [ht] <;> decide

/-- Witness for `rate_limit_retry_policy` at a concrete one-posting
input whose retry also fails: the trace is call-sleep-call and the
posting list is returned unchanged. -/
theorem rate_limit_retry_policy_witness :
    (get_ai_scores (sampleJobs 1) ["s"] (.failure true) (.failure false)).2
        = [Effect.serviceCall, Effect.sleep 65, Effect.serviceCall] ∧
      (get_ai_scores (sampleJobs 1) ["s"] (.failure true) (.failure false)).1 = sampleJobs 1 :=
  ⟨(rate_limit_retry_policy (sampleJobs 1) ["s"] (.failure false) (by decide) (by decide)).1,
    (rate_limit_retry_policy (sampleJobs 1) ["s"] (.failure false) (by decide) (by decide)).2.2.1
      false rfl⟩

/-- C9 counterexample: with an 11-posting list, the single returned
entry `{id: -1}` changes the posting at index 10 — outside the claimed
touchable range `[0, 9]` (only `jobs[:10]` is batched, but the negative
id resolves against the full list). -/
theorem scorer_touches_index_ten_cex :
    ((get_ai_scores (sampleJobs 11) ["SQL"]
        (.success (some [ScoreItem.mk (some (-1)) (some 77) (some "r")]))
        (.failure false)).1).map Posting.match_score
      = List.replicate 10 (some 0) ++ [some 77] := by
  decide

/-- C9 amended: for every input and every service outcome the scorer
preserves the length and order of the posting list and never changes
any posting's title, company, location, job_url or description
(`framesOf` collects exactly those fields in order); and whenever every
returned id is non-negative, postings at indices ≥ 10 are completely
untouched — the negative-id escape of `scorer_touches_index_ten_cex` is
the only way past index 9. -/
theorem scorer_frame_property (jobs : List Posting) (skills : List String)
    (a1 a2 : AttemptResult) :
    framesOf ((get_ai_scores jobs skills a1 a2).1) = framesOf jobs ∧
      (attemptIdsNonneg a1 = true → attemptIdsNonneg a2 = true →
        ∀ j, 10 ≤ j → ((get_ai_scores jobs skills a1 a2).1)[j]? = jobs[j]?) := by
  constructor
  · unfold get_ai_scores
    split
    · rfl
    · cases a1 with
      | success c =>
        cases c with
        | none => rfl
        | some items => exact applyScores_framesOf items jobs _
      | failure rl =>
        cases rl with
        | true =>
          cases a2 with
          | success c =>
            cases c with
            | none => rfl
            | some items => exact applyScores_framesOf items jobs _
          | failure b => rfl
        | false => rfl
  · intro hn1 hn2 j hj10
    have hK : (jobs.take 10).length ≤ 10 := List.length_take_le 10 jobs
    unfold get_ai_scores
    split
    · rfl
    · cases a1 with
      | success c =>
        cases c with
        | none => rfl
        | some items =>
          refine applyScores_getElem?_not_target items jobs _ j (fun hmem => ?_)
          have hx := target_lt_K_of_nonneg hn1 hmem
          exact absurd (Nat.lt_of_lt_of_le hx hK) (Nat.not_lt.2 hj10)
      | failure rl =>
        cases rl with
        | true =>
          cases a2 with
          | success c =>
            cases c with
            | none => rfl
            | some items =>
              refine applyScores_getElem?_not_target items jobs _ j (fun hmem => ?_)
              have hx := target_lt_K_of_nonneg hn2 hmem
              exact absurd (Nat.lt_of_lt_of_le hx hK) (Nat.not_lt.2 hj10)
          | failure b => rfl
        | false => rfl

/-- Witness for `scorer_frame_property` at a concrete input: a
successful in-range scoring of a one-posting batch preserves the frame
fields, and index 10 (past the end) is untouched. -/
theorem scorer_frame_property_witness :
    framesOf ((get_ai_scores (sampleJobs 1) ["s"]
        (.success (some [ScoreItem.mk (some 0) (some 9) (some "r")])) (.failure false)).1)
        = framesOf (sampleJobs 1) ∧
      ((get_ai_scores (sampleJobs 1) ["s"]
        (.success (some [ScoreItem.mk (some 0) (some 9) (some "r")])) (.failure false)).1)[10]?
        = (sampleJobs 1)[10]? :=
  ⟨(scorer_frame_property (sampleJobs 1) ["s"]
      (.success (some [ScoreItem.mk (some 0) (some 9) (some "r")])) (.failure false)).1,
    (scorer_frame_property (sampleJobs 1) ["s"]
      (.success (some [ScoreItem.mk (some 0) (some 9) (some "r")])) (.failure false)).2
      (by decide) (by decide) 10 (by decide)⟩

/-! ## Claim theorems about the result sink -/

theorem mkRow_mem_sinkRowsAux (ts name : String) (failAt : Nat → Bool) :
    ∀ (l : List Posting) (base i : Nat) (h : i < l.length),
      failAt (base + i) = false →
      mkRow ts name (l.get ⟨i, h⟩) ∈ sinkRowsAux ts name failAt l base
  | [], _, i, h, _ => absurd h (Nat.not_lt_zero i)
  | p :: rest, base, 0, _, hf => by
    unfold sinkRowsAux
    rw [Nat.add_zero] at hf
    rw [if_neg (by rw [hf]; exact Bool.false_ne_true)]
    exact List.mem_cons_self _ _
  | p :: rest, base, i + 1, h, hf => by
    unfold sinkRowsAux
    have hrec := mkRow_mem_sinkRowsAux ts name failAt rest (base + 1) i
      (Nat.lt_of_succ_lt_succ h) (by rwa [Nat.add_right_comm base 1 i])
    split
    · exact hrec
    · exact List.mem_cons_of_mem _ hrec

/-- C8: the result sink is best-effort per row — the response body is
the final posting list no matter which (or how many) row appends raise,
two runs differing only in which appends fail return the same response,
and a row whose own append does not raise is durably stored even when
every other row's append raises (failures never stop the loop). -/
theorem sink_best_effort (connected : Bool) (ts name : String) (jobs : List Posting)
    (failA failB : Nat → Bool) :
    (runSink connected ts name jobs failA).2 = jobs ∧
      (runSink connected ts name jobs failA).2 = (runSink connected ts name jobs failB).2 ∧
      (∀ i (h : i < jobs.length), connected = true → failA i = false →
        mkRow ts name (jobs.get ⟨i, h⟩) ∈ (runSink connected ts name jobs failA).1) := by
  have hsnd : ∀ f : Nat → Bool, (runSink connected ts name jobs f).2 = jobs := by
    intro f
    unfold runSink
    split
    · rfl
    · rfl
  refine ⟨hsnd failA, (hsnd failA).trans (hsnd failB).symm, ?_⟩
  intro i h hc hf
  have hne : jobs.isEmpty = false := by
    cases jobs with
    | nil => exact absurd h (Nat.not_lt_zero i)
    | cons a l => rfl
  unfold runSink
  rw [hc, hne]
  simp only [Bool.not_false, Bool.and_true, if_pos rfl]
  exact mkRow_mem_sinkRowsAux ts name failA jobs 0 i h (by rwa [Nat.zero_add])

/-- Witness for `sink_best_effort`: with two postings and an append
oracle that raises exactly on row 0, row 1 is still stored and the
response is the full list. -/
theorem sink_best_effort_witness :
    mkRow "t" "n" ((sampleJobs 2).get ⟨1, by decide⟩)
        ∈ (runSink true "t" "n" (sampleJobs 2) (fun i => i == 0)).1 ∧
      (runSink true "t" "n" (sampleJobs 2) (fun i => i == 0)).2 = sampleJobs 2 :=
  ⟨(sink_best_effort true "t" "n" (sampleJobs 2) (fun i => i == 0) (fun _ => false)).2.2
      1 (by decide) rfl rfl,
    (sink_best_effort true "t" "n" (sampleJobs 2) (fun i => i == 0) (fun _ => false)).1⟩

end App
